import Mathlib

/-!
Verification development for the iterated Prisoner's Dilemma engine
(`pd_core.py`): data model, strategy set, pairing generator, and the
round-advance simulator.  Python dictionaries are embedded as
insertion-ordered association lists, agent object references as agent
names (names are unique per the data-model invariant), machine floats
in `[0,1)` as rationals, and the seeded `random.Random` instance as a
deterministic stream of rationals with a position counter.
-/

namespace PD

/-- `Action` enum (pd_core.py lines 11-13): Cooperate or Defect. -/
inductive Action where
  | C : Action
  | D : Action
deriving DecidableEq, Repr

/-- `Payoffs` dataclass (lines 15-20): the four payoff parameters. -/
structure Payoffs where
  T : Int := 5
  R : Int := 3
  P : Int := 1
  S : Int := 0
deriving DecidableEq, Repr

/-- `Payoffs.payoff` (lines 21-25): pure function on a pair of actions. -/
def Payoffs.payoff (pay : Payoffs) (a_self a_opp : Action) : Int :=
  if a_self = Action.C ∧ a_opp = Action.C then pay.R
  else if a_self = Action.C ∧ a_opp = Action.D then pay.S
  else if a_self = Action.D ∧ a_opp = Action.C then pay.T
  else pay.P

/-- `DyadHistory` dataclass (lines 27-31): three parallel append-only lists. -/
structure DyadHistory where
  my_actions : List Action := []
  opp_actions : List Action := []
  my_payoffs : List Int := []
deriving DecidableEq, Repr

/-- `DyadHistory()` with the dataclass defaults: three empty lists. -/
def emptyHist : DyadHistory := { my_actions := [], opp_actions := [], my_payoffs := [] }

/-- Lookup in an insertion-ordered association list (embeds Python `dict` access). -/
def alookup {β : Type} : List (String × β) → String → Option β
  | [], _ => none
  | p :: ps, k => if p.1 = k then some p.2 else alookup ps k

/-- Python `d[k] = v`: overwrite in place if the key exists, else append
(dicts preserve insertion order). -/
def aset {β : Type} (l : List (String × β)) (k : String) (v : β) : List (String × β) :=
  if (alookup l k).isSome then l.map (fun p => if p.1 = k then (p.1, v) else p)
  else l ++ [(k, v)]

/-- Python `d.setdefault(k, v)`: insert only when the key is absent. -/
def asetdefault {β : Type} (l : List (String × β)) (k : String) (v : β) : List (String × β) :=
  if (alookup l k).isSome then l else l ++ [(k, v)]

/-- Per-strategy private per-opponent state, carried with the strategy tag.
The spec's design note models the class hierarchy as a closed set of tagged
variants; one constructor per strategy subclass of the source (lines 58-251),
the 19 roster strategies plus the user-controlled agent. -/
inductive Strategy where
  | alwaysCooperate : Strategy
  | alwaysDefect : Strategy
  | titForTat : Strategy
  | winStayLoseShift : Strategy
  | grimTrigger : Strategy
  | titForTwoTats : Strategy
  | suspiciousTitForTat : Strategy
  | generousTitForTat (generosity : ℚ) : Strategy
  | softGrudger (punish_rounds : ℕ) (punish_left : List (String × ℕ)) : Strategy
  | alternator (start_with_C : Bool) (count : List (String × ℕ)) : Strategy
  | randomCooperator (coop_prob : ℚ) : Strategy
  | prober (mode : List (String × String)) : Strategy
  | stochasticWSLS (eps : ℚ) : Strategy
  | joss (p_defect_after_CC : ℚ) : Strategy
  | contriteTitForTat (contrite : List (String × Bool)) : Strategy
  | gradual (punish_count remaining repairing : List (String × ℕ)) : Strategy
  | tester (mode : List (String × String)) : Strategy
  | majority : Strategy
  | memoryOne (pCC pCD pDC pDD : ℚ) : Strategy
  | userAgent (next_action : Option Action) : Strategy
deriving DecidableEq, Repr

/-- `Agent` base state (lines 33-37): name, cumulative score, per-opponent
dyad histories, plus the strategy tag with its private state. -/
structure Agent where
  name : String
  score : Int := 0
  memory : List (String × DyadHistory) := []
  strat : Strategy
deriving DecidableEq, Repr

/-- Fresh agent as built by each strategy's `__init__`: score 0, empty memory. -/
def mkAgent (n : String) (st : Strategy) : Agent :=
  { name := n, score := 0, memory := [], strat := st }

/-- `self.memory[opp.name]` after `_ensure`: total lookup with empty default. -/
def lookupHist (mem : List (String × DyadHistory)) (k : String) : DyadHistory :=
  (alookup mem k).getD emptyHist

/-- `Agent.last_with` (lines 41-45): all-`none` triple when the opponent was
never seen or the history is empty, else the last entries (Python `[-1]`). -/
def Agent.last_with (a : Agent) (oppName : String) :
    Option Action × Option Action × Option Int :=
  match alookup a.memory oppName with
  | none => (none, none, none)
  | some h =>
      if h.my_actions.isEmpty then (none, none, none)
      else (h.my_actions.getLast?, h.opp_actions.getLast?, h.my_payoffs.getLast?)

/-- `Agent.observe` (lines 48-54): `_ensure` the dyad history, append the
round's actions and payoff, and add the payoff to the cumulative score. -/
def Agent.observe (a : Agent) (oppName : String) (myA oppA : Action) (myPay : Int) : Agent :=
  let mem0 := asetdefault a.memory oppName emptyHist
  let mem1 := mem0.map (fun p =>
    if p.1 = oppName then
      (p.1, { my_actions := p.2.my_actions ++ [myA]
              opp_actions := p.2.opp_actions ++ [oppA]
              my_payoffs := p.2.my_payoffs ++ [myPay] : DyadHistory })
    else p)
  { a with memory := mem1, score := a.score + myPay }

/-- The Python `random` abstraction: a deterministic stream of rationals in
`[0,1)` with a position counter.  `random()` reads the stream at the current
position and advances it; this models both the module-level `random` used by
stochastic strategies and the per-simulator `random.Random(seed)`. -/
structure PyRandom where
  stream : ℕ → ℚ
  pos : ℕ

/-- One `random()` call: the next float and the advanced state. -/
def PyRandom.next (r : PyRandom) : ℚ × PyRandom :=
  (r.stream r.pos, { stream := r.stream, pos := r.pos + 1 })

/-- Models the word-level generator behind `random.Random(seed)` as an LCG.
Only two facts about it are used: it is a deterministic function of the seed,
and its outputs lie in `[0,1)`. -/
def lcgStep (x : ℕ) : ℕ := (1664525 * x + 1013904223) % 4294967296

/-- The seeded stream of `random()` outputs (deterministic in the seed). -/
def mtStream (seed : ℕ) (n : ℕ) : ℚ :=
  mkRat (lcgStep^[n + 1] (seed % 4294967296)) 4294967296

/-- `random.Random(seed)` (line 281). -/
def PyRandom.ofSeed (seed : ℕ) : PyRandom := { stream := mtStream seed, pos := 0 }

/-- Swap two positions of a list (helper for the Fisher-Yates shuffle). -/
def listSwap {α : Type} (l : List α) (i j : ℕ) : List α :=
  match l.get? i, l.get? j with
  | some x, some y => (l.set i y).set j x
  | _, _ => l

/-- Python float comparison `a < b`, computed on the rational representation
by cross-multiplication (denominators are positive); `qblt_eq_true_iff` below
shows it coincides with `<` on ℚ. -/
def qblt (a b : ℚ) : Bool := decide (a.num * (b.den : ℤ) < b.num * (a.den : ℤ))

/-- Python `min(a, b)` on floats (returns `a` on ties). -/
def pymin (a b : ℚ) : ℚ := if qblt b a then b else a

/-- Python `max(a, b)` on floats (returns `a` on ties). -/
def pymax (a b : ℚ) : ℚ := if qblt a b then b else a

/-- `⌊q * n⌋` for a non-negative draw `q`, computed on the representation. -/
def ratFloorTimes (q : ℚ) (n : ℕ) : ℕ := ((q.num * n) / (q.den : ℤ)).toNat

/-- Fisher-Yates loop of `random.shuffle`: for `i` from `n-1` down to `1`,
draw `j` uniformly below `i+1` and swap.  Each index consumes one draw from
the stream; the drawn float picks the swap target. -/
def shuffleGo {α : Type} : ℕ → List α → PyRandom → List α × PyRandom
  | 0, l, r => (l, r)
  | i + 1, l, r =>
      let u := r.next
      let j := min (ratFloorTimes u.1 (i + 2)) (i + 1)
      shuffleGo i (listSwap l (i + 1) j) u.2

/-- `rng.shuffle(pool)` (line 257): shuffle in place, consuming `n-1` draws. -/
def pyShuffle {α : Type} (l : List α) (r : PyRandom) : List α × PyRandom :=
  shuffleGo (l.length - 1) l r

/-- Strategy dispatch for `decide` (one branch per strategy subclass, in
source order with the later additions appended).  Returns the chosen action,
the agent with its mutated private state (`_ensure` inserts, `setdefault`s,
counters, mode flags), and the module-level random state: every stochastic
strategy — `GenerousTitForTat` (line 101), `RandomCooperator` (line 128),
`StochasticWSLS` (line 156), `Joss` (line 164), `MemoryOne` (lines 239-241)
— calls the module function `random.random()`, not the simulator's
`self.rng`, so `decide` threads the global `random` state `g`. -/
def Agent.decide (a : Agent) (opp : Agent) (g : PyRandom) : Action × Agent × PyRandom :=
  match a.strat with
  | Strategy.alwaysCooperate => (Action.C, a, g)
  | Strategy.alwaysDefect => (Action.D, a, g)
  | Strategy.titForTat =>
      match (a.last_with opp.name).2.1 with
      | none => (Action.C, a, g)
      | some x => (x, a, g)
  | Strategy.suspiciousTitForTat =>
      match (a.last_with opp.name).2.1 with
      | none => (Action.D, a, g)
      | some x => (x, a, g)
  | Strategy.grimTrigger =>
      let a1 : Agent :=
        { a with memory := asetdefault a.memory opp.name emptyHist }
      if Action.D ∈ (lookupHist a1.memory opp.name).opp_actions then (Action.D, a1, g)
      else (Action.C, a1, g)
  | Strategy.generousTitForTat gen =>
      match (a.last_with opp.name).2.1 with
      | none => (Action.C, a, g)
      | some Action.C => (Action.C, a, g)
      | some Action.D =>
          let u := g.next
          (if qblt u.1 gen then Action.C else Action.D, a, u.2)
  | Strategy.softGrudger punish_rounds punish_left =>
      let a1 : Agent :=
        { a with memory := asetdefault a.memory opp.name emptyHist }
      let pl := (alookup punish_left opp.name).getD 0
      if pl > 0 then
        (Action.D,
         { a1 with strat := Strategy.softGrudger punish_rounds (aset punish_left opp.name (pl - 1)) },
         g)
      else
        match (a1.last_with opp.name).2.1 with
        | some Action.D =>
            (Action.D,
             { a1 with strat :=
                 Strategy.softGrudger punish_rounds (aset punish_left opp.name (punish_rounds - 1)) },
             g)
        | _ => (Action.C, a1, g)
  | Strategy.alternator startC cnt =>
      let n := (alookup cnt opp.name).getD 0
      let a1 : Agent := { a with strat := Strategy.alternator startC (aset cnt opp.name (n + 1)) }
      let wantC : Bool := if startC then n % 2 == 0 else n % 2 == 1
      (if wantC then Action.C else Action.D, a1, g)
  | Strategy.gradual pc rem rep =>
      let a1 : Agent :=
        { a with memory := asetdefault a.memory opp.name emptyHist }
      let pc0 := asetdefault pc opp.name 0
      let rem0 := asetdefault rem opp.name 0
      let rep0 := asetdefault rep opp.name 0
      let r := (alookup rem0 opp.name).getD 0
      if r > 0 then
        let rem1 := aset rem0 opp.name (r - 1)
        let rep1 := if r - 1 = 0 then aset rep0 opp.name 2 else rep0
        (Action.D, { a1 with strat := Strategy.gradual pc0 rem1 rep1 }, g)
      else
        let q := (alookup rep0 opp.name).getD 0
        if q > 0 then
          (Action.C, { a1 with strat := Strategy.gradual pc0 rem0 (aset rep0 opp.name (q - 1)) }, g)
        else
          match (a1.last_with opp.name).2.1 with
          | some Action.D =>
              let p1 := (alookup pc0 opp.name).getD 0 + 1
              (Action.D,
               { a1 with strat := Strategy.gradual (aset pc0 opp.name p1) (aset rem0 opp.name p1) rep0 },
               g)
          | _ => (Action.C, { a1 with strat := Strategy.gradual pc0 rem0 rep0 }, g)
  | Strategy.winStayLoseShift =>
      -- lines 69-74: repeat own last action on a good outcome, else switch
      let lw := a.last_with opp.name
      match lw.1 with
      | none => (Action.C, a, g)
      | some ml =>
          let good := (ml = Action.C ∧ lw.2.1 = some Action.C)
            ∨ (ml = Action.D ∧ lw.2.1 = some Action.C)
          (if good then ml else (if ml = Action.D then Action.C else Action.D), a, g)
  | Strategy.titForTwoTats =>
      -- lines 83-88: Defect only after two consecutive opponent Defects
      let a1 : Agent := { a with memory := asetdefault a.memory opp.name emptyHist }
      let h := lookupHist a1.memory opp.name
      if h.opp_actions.length < 2 then (Action.C, a1, g)
      else
        (if h.opp_actions.getLast? = some Action.D
            ∧ h.opp_actions.dropLast.getLast? = some Action.D
         then Action.D else Action.C, a1, g)
  | Strategy.randomCooperator p =>
      -- lines 124-128: Cooperate with probability p, drawn from the module-level random
      let u := g.next
      (if qblt u.1 p then Action.C else Action.D, a, u.2)
  | Strategy.prober mode =>
      -- lines 130-146: open D,C,C while probing, then permanently TFT or exploit.
      -- The `return self.decide(opp)` after the mode write re-enters with the
      -- updated mode and is inlined here as the corresponding branch.
      let a1 : Agent := { a with memory := asetdefault a.memory opp.name emptyHist }
      let h := lookupHist a1.memory opp.name
      let m := (alookup mode opp.name).getD "probe"
      if m = "probe" then
        let t := h.my_actions.length
        if t = 0 then (Action.D, { a1 with strat := Strategy.prober mode }, g)
        else if t = 1 ∨ t = 2 then (Action.C, { a1 with strat := Strategy.prober mode }, g)
        else
          -- retaliated = Action.D in h.opp_actions[1:3]
          let retaliated : Bool := Decidable.decide (Action.D ∈ (h.opp_actions.drop 1).take 2)
          let mode1 := aset mode opp.name (if retaliated then "tft" else "exploit")
          if retaliated then
            (match (a1.last_with opp.name).2.1 with
             | none => Action.C
             | some x => x, { a1 with strat := Strategy.prober mode1 }, g)
          else (Action.D, { a1 with strat := Strategy.prober mode1 }, g)
      else if m = "tft" then
        (match (a1.last_with opp.name).2.1 with
         | none => Action.C
         | some x => x, { a1 with strat := Strategy.prober mode }, g)
      else (Action.D, { a1 with strat := Strategy.prober mode }, g)
  | Strategy.stochasticWSLS eps =>
      -- lines 148-156: WSLS, but on a lost round switch only with probability eps
      let lw := a.last_with opp.name
      match lw.1 with
      | none => (Action.C, a, g)
      | some ml =>
          let won := (ml = Action.C ∧ lw.2.1 = some Action.C)
            ∨ (ml = Action.D ∧ lw.2.1 = some Action.C)
          if won then (ml, a, g)
          else
            let u := g.next
            (if qblt u.1 eps then (if ml = Action.D then Action.C else Action.D) else ml,
             a, u.2)
  | Strategy.joss p =>
      -- lines 158-165: TitForTat, but defect with probability p after opponent Cooperate
      match (a.last_with opp.name).2.1 with
      | none => (Action.C, a, g)
      | some Action.C =>
          let u := g.next
          (if qblt u.1 p then Action.D else Action.C, a, u.2)
      | some Action.D => (Action.D, a, g)
  | Strategy.contriteTitForTat con =>
      -- lines 167-178: mirror, but cooperate once after own uncalled-for Defect
      let a1 : Agent := { a with memory := asetdefault a.memory opp.name emptyHist }
      let con0 := asetdefault con opp.name false
      let lw := a1.last_with opp.name
      match lw.2.1 with
      | none => (Action.C, { a1 with strat := Strategy.contriteTitForTat con0 }, g)
      | some ol =>
          let con1 := if lw.1 = some Action.D ∧ ol = Action.C
            then aset con0 opp.name true else con0
          if (alookup con1 opp.name).getD false then
            (Action.C, { a1 with strat := Strategy.contriteTitForTat (aset con1 opp.name false) }, g)
          else (ol, { a1 with strat := Strategy.contriteTitForTat con1 }, g)
  | Strategy.tester mode =>
      -- lines 204-218: open Defect; switch to TFT if it draws retaliation, else exploit.
      -- The `return self.decide(opp)` after the mode write is inlined as above.
      let a1 : Agent := { a with memory := asetdefault a.memory opp.name emptyHist }
      let m := (alookup mode opp.name).getD "probe"
      let h := lookupHist a1.memory opp.name
      if m = "probe" then
        if h.my_actions.length = 0 then (Action.D, { a1 with strat := Strategy.tester mode }, g)
        else
          let ol := h.opp_actions.getLast?
          let mode1 := aset mode opp.name (if ol = some Action.D then "tft" else "exploit")
          if ol = some Action.D then
            (match (a1.last_with opp.name).2.1 with
             | none => Action.C
             | some x => x, { a1 with strat := Strategy.tester mode1 }, g)
          else (Action.D, { a1 with strat := Strategy.tester mode1 }, g)
      else if m = "tft" then
        (match (a1.last_with opp.name).2.1 with
         | none => Action.C
         | some x => x, { a1 with strat := Strategy.tester mode }, g)
      else (Action.D, { a1 with strat := Strategy.tester mode }, g)
  | Strategy.majority =>
      -- lines 220-224: Cooperate iff at least half the opponent's actions were C;
      -- `count/len >= 0.5` is the exact rational comparison, i.e. not (ratio < 1/2)
      let a1 : Agent := { a with memory := asetdefault a.memory opp.name emptyHist }
      let h := lookupHist a1.memory opp.name
      if h.opp_actions.isEmpty then (Action.C, a1, g)
      else
        (if qblt (mkRat (h.opp_actions.count Action.C) h.opp_actions.length) (mkRat 1 2)
         then Action.D else Action.C, a1, g)
  | Strategy.memoryOne pCC pCD pDC pDD =>
      -- lines 226-241: cooperate with the probability keyed by the previous
      -- (own, opponent) outcome; the CC entry on first contact
      let lw := a.last_with opp.name
      match lw.2.1 with
      | none =>
          let u := g.next
          (if qblt u.1 pCC then Action.C else Action.D, a, u.2)
      | some ol =>
          -- my_last is present whenever opp_last is (the three lists are parallel)
          let ml := lw.1.getD Action.C
          let probC := match ml, ol with
            | Action.C, Action.C => pCC
            | Action.C, Action.D => pCD
            | Action.D, Action.C => pDC
            | Action.D, Action.D => pDD
          let u := g.next
          (if qblt u.1 probC then Action.C else Action.D, a, u.2)
  | Strategy.userAgent na =>
      -- lines 245-251: the externally injected action if set, else Cooperate
      (na.getD Action.C, a, g)

/-- `[(pool[i], pool[i+1]) for i in range(0, len(pool)-1, 2)]` (line 258):
consecutive pairing, dropping a trailing odd element. -/
def chunkPairs : List Agent → List (String × String)
  | a :: b :: rest => (a.name, b.name) :: chunkPairs rest
  | _ => []

/-- `_make_random_pairs` (lines 255-258): shuffle a copy of the roster with
the given rng and pair consecutive entries (the last one sits out when the
count is odd).  Pairs are recorded as name pairs; names are the unique keys
the engine itself uses for overrides, tallies and history. -/
def make_random_pairs (agents : List Agent) (rng : PyRandom) :
    List (String × String) × PyRandom :=
  let pr := pyShuffle agents rng
  (chunkPairs pr.1, pr.2)

/-- `_play_pair_with_override` (lines 260-272): resolve both actions
(override by name or `decide`), compute both payoffs, let both agents
observe.  Returns `(m1, m2, p1, p2, a1', a2', g')`. -/
def play_pair_with_override (a1 a2 : Agent) (pay : Payoffs)
    (overrides : List (String × Action)) (g : PyRandom) :
    Action × Action × Int × Int × Agent × Agent × PyRandom :=
  let d1 : Action × Agent × PyRandom :=
    match alookup overrides a1.name with
    | some m => (m, a1, g)
    | none => a1.decide a2 g
  let d2 : Action × Agent × PyRandom :=
    match alookup overrides a2.name with
    | some m => (m, a2, d1.2.2)
    | none => a2.decide d1.2.1 d1.2.2
  let m1 := d1.1
  let m2 := d2.1
  let p1 := pay.payoff m1 m2
  let p2 := pay.payoff m2 m1
  let a1f := (d1.2.1).observe a2.name m1 m2 p1
  let a2f := (d2.2.1).observe a1.name m2 m1 p2
  (m1, m2, p1, p2, a1f, a2f, d2.2.2)

/-- The dictionary `step` returns to the caller (lines 351-356). -/
structure Report where
  round : ℕ
  pairs : List (String × Action × String × Action × Int × Int)
  coop_rate : ℚ
  round_avg_payoff : ℚ
deriving DecidableEq, Repr

/-- `Simulator` state (lines 276-288).  `last_pairs` stores the pairing by
agent name (Python stores aliased object references into the roster). -/
structure Simulator where
  agents : List Agent
  pay : Payoffs
  delta : ℚ
  rng : PyRandom
  round : ℕ
  last_pairs : List (String × String)
  coop_rates : List ℚ
  per_agent_cumsum : List (String × Int)
  per_agent_cumavg : List (String × List ℚ)
  per_round_avg_all : List ℚ
  action_counts : List (String × ℕ × ℕ)

/-- `Simulator.__init__` (lines 276-288): clamp delta to `[0,1]`, seed the
rng, zero every series.  (The even-roster assert is a construction-time
guard; no claim depends on it.) -/
def Simulator.make (agents : List Agent) (pay : Payoffs) (seed : ℕ) (delta : ℚ) : Simulator :=
  { agents := agents
    pay := pay
    delta := pymax 0 (pymin 1 delta)
    rng := PyRandom.ofSeed seed
    round := 0
    last_pairs := []
    coop_rates := []
    per_agent_cumsum := agents.map (fun a => (a.name, 0))
    per_agent_cumavg := agents.map (fun a => (a.name, ([] : List ℚ)))
    per_round_avg_all := []
    action_counts := [] }

/-- The shared reuse-or-reshuffle pairing logic of `step` (lines 305-308) and
`preview_pairs` (lines 415-418).  Python's `and` short-circuits: when
`last_pairs` is empty, `rng.random()` is never called. -/
def choosePairs (last_pairs : List (String × String)) (delta : ℚ)
    (agents : List Agent) (rng : PyRandom) : List (String × String) × PyRandom :=
  if last_pairs ≠ [] then
    let u := rng.next
    if qblt u.1 delta then (last_pairs, u.2)
    else make_random_pairs agents u.2
  else make_random_pairs agents rng

/-- Resolve an agent name against the roster.  In Python the pairs alias the
roster's objects directly, so the name is always found; the default is inert. -/
def lookupAgentD (roster : List Agent) (n : String) : Agent :=
  match roster.find? (fun a => a.name == n) with
  | some a => a
  | none => mkAgent n Strategy.alwaysCooperate

/-- Write an (updated) agent back into the roster by name (Python mutates the
aliased object in place). -/
def setAgentD (roster : List Agent) (n : String) (newA : Agent) : List Agent :=
  roster.map (fun x => if x.name = n then newA else x)

/-- `self.per_agent_cumsum[a.name] += p` (lines 324-325).  In reachable
states the key is always present (it is seeded from the roster); the
append-if-absent branch is inert. -/
def assocAddInt (l : List (String × Int)) (k : String) (v : Int) : List (String × Int) :=
  if (alookup l k).isSome then l.map (fun p => if p.1 = k then (p.1, p.2 + v) else p)
  else l ++ [(k, v)]

/-- `self.action_counts[name][k] += 1` (lines 331-332) with `defaultdict`
semantics: missing keys start from `(0, 0)` (stored as (C-count, D-count)). -/
def bumpTally (l : List (String × ℕ × ℕ)) (k : String) (m : Action) : List (String × ℕ × ℕ) :=
  match alookup l k with
  | some _ =>
      l.map (fun p =>
        if p.1 = k then
          (p.1, if m = Action.C then (p.2.1 + 1, p.2.2) else (p.2.1, p.2.2 + 1))
        else p)
  | none => l ++ [(k, if m = Action.C then ((1 : ℕ), (0 : ℕ)) else (0, 1))]

/-- `self.per_agent_cumavg[name].append(v)` (line 345); key always present in
reachable states. -/
def assocAppendQ (l : List (String × List ℚ)) (k : String) (v : ℚ) : List (String × List ℚ) :=
  l.map (fun p => if p.1 = k then (p.1, p.2 ++ [v]) else p)

/-- Loop-carried state of the `for a, b in pairs` loop in `step` (lines 315-336). -/
structure RoundAcc where
  roster : List Agent
  g : PyRandom
  cumsum : List (String × Int)
  action_counts : List (String × ℕ × ℕ)
  coop_count : ℕ
  interactions : ℕ
  round_sum : Int
  results : List (String × Action × String × Action × Int × Int)

/-- One iteration of the pair loop in `step` (lines 315-336): play the pair,
write both agents back, and update the tallies and per-round accumulators. -/
def stepPairFold (pay : Payoffs) (overrides : List (String × Action))
    (acc : RoundAcc) (pr : String × String) : RoundAcc :=
  let a := lookupAgentD acc.roster pr.1
  let b := lookupAgentD acc.roster pr.2
  let res := play_pair_with_override a b pay overrides acc.g
  let m1 := res.1
  let m2 := res.2.1
  let p1 := res.2.2.1
  let p2 := res.2.2.2.1
  { roster := setAgentD (setAgentD acc.roster a.name res.2.2.2.2.1) b.name res.2.2.2.2.2.1
    g := res.2.2.2.2.2.2
    cumsum := assocAddInt (assocAddInt acc.cumsum a.name p1) b.name p2
    action_counts := bumpTally (bumpTally acc.action_counts a.name m1) b.name m2
    coop_count := acc.coop_count + (if m1 = Action.C then 1 else 0)
      + (if m2 = Action.C then 1 else 0)
    interactions := acc.interactions + 2
    round_sum := acc.round_sum + (p1 + p2)
    results := acc.results ++ [(a.name, m1, b.name, m2, p1, p2)] }

/-- `Simulator.step` (lines 299-356): increment the round counter, choose the
pairing (reuse with probability delta, else reshuffle), play every pair,
append the aggregate series, remember the pairing, and return the report.
`g` is the module-level `random` state consumed by stochastic strategies. -/
def Simulator.step (s : Simulator) (overrides : List (String × Action)) (g : PyRandom) :
    Report × Simulator × PyRandom :=
  let rnd := s.round + 1
  let pr := choosePairs s.last_pairs s.delta s.agents s.rng
  let acc := pr.1.foldl (stepPairFold s.pay overrides)
    { roster := s.agents, g := g, cumsum := s.per_agent_cumsum,
      action_counts := s.action_counts, coop_count := 0, interactions := 0,
      round_sum := 0, results := [] }
  let rate : ℚ := if acc.interactions = 0 then 0
    else (acc.coop_count : ℚ) / (acc.interactions : ℚ)
  let roundAvg : ℚ := (acc.round_sum : ℚ) / (s.agents.length : ℚ)
  let cumavg := acc.roster.foldl
    (fun m a => assocAppendQ m a.name (((alookup acc.cumsum a.name).getD 0 : ℚ) / (rnd : ℚ)))
    s.per_agent_cumavg
  ({ round := rnd, pairs := acc.results, coop_rate := rate, round_avg_payoff := roundAvg },
   { s with agents := acc.roster
            rng := pr.2
            round := rnd
            last_pairs := pr.1
            coop_rates := s.coop_rates ++ [rate]
            per_agent_cumsum := acc.cumsum
            per_agent_cumavg := cumavg
            per_round_avg_all := s.per_round_avg_all ++ [roundAvg]
            action_counts := acc.action_counts },
   acc.g)

/-- `Simulator.reset` (lines 290-297): zero the round counter, pairing,
tallies and series, and clear every agent's score and memory.  The agent
objects are kept (only `score` and `memory` are touched), so each strategy's
private per-opponent state survives in `strat`. -/
def Simulator.reset (s : Simulator) : Simulator :=
  { s with round := 0
           last_pairs := []
           action_counts := []
           coop_rates := []
           per_round_avg_all := []
           per_agent_cumsum := s.agents.map (fun a => (a.name, 0))
           per_agent_cumavg := s.agents.map (fun a => (a.name, ([] : List ℚ)))
           agents := s.agents.map (fun a => { a with score := 0, memory := [] }) }

/-- The row `(a.name, a.score, a.score / max(1, self.round))` of `summary`. -/
def scoreRow (rnd : ℕ) (a : Agent) : String × Int × ℚ :=
  (a.name, a.score, (a.score : ℚ) / ((max 1 rnd : ℕ) : ℚ))

/-- Stable insertion of a row in descending score order: the inserted row
passes only rows with a strictly larger score, so earlier input rows with an
equal score stay first. -/
def insertByScoreDesc (x : String × Int × ℚ) :
    List (String × Int × ℚ) → List (String × Int × ℚ)
  | [] => [x]
  | y :: ys => if x.2.1 < y.2.1 then y :: insertByScoreDesc x ys else x :: y :: ys

/-- `out.sort(key=lambda x: x[1], reverse=True)` (line 360): Python's sort is
specified as stable; modelled by a stable insertion sort. -/
def sortByScoreDesc (l : List (String × Int × ℚ)) : List (String × Int × ℚ) :=
  l.foldr insertByScoreDesc []

/-- `Simulator.summary` (lines 358-361). -/
def Simulator.summary (s : Simulator) : List (String × Int × ℚ) :=
  sortByScoreDesc (s.agents.map (scoreRow s.round))

/-- `Simulator.preview_pairs` (lines 397-428): save the rng state, replay the
pairing logic of `step` (consuming draws), restore the saved state.  Returns
the previewed pairing and the simulator as left behind by the call. -/
def Simulator.preview_pairs (s : Simulator) : List (String × String) × Simulator :=
  let saved := s.rng
  let pr := choosePairs s.last_pairs s.delta s.agents s.rng
  (pr.1, { s with rng := saved })

/-- Drive a simulator through a sequence of override maps, collecting the
round reports; threads the module-level `random` state `g`. -/
def runSteps (s : Simulator) (g : PyRandom) :
    List (List (String × Action)) → List Report × Simulator × PyRandom
  | [] => ([], s, g)
  | o :: os =>
      let r := s.step o g
      let rest := runSteps r.2.1 r.2.2 os
      (r.1 :: rest.1, rest.2)

/-- Fold a batch of `observe` calls for one opponent over an agent. -/
def observeMany (a : Agent) (oppName : String) (obs : List (Action × Action × Int)) : Agent :=
  obs.foldl (fun x o => x.observe oppName o.1 o.2.1 o.2.2) a

/-- Drive one agent against a fixed opponent action script: each round the
agent decides (threading the module random state) and then observes the pair
of actions with its payoff, exactly as `step` does for one member of a pair. -/
def playAgainst (pay : Payoffs) (a : Agent) (opp : Agent) (g : PyRandom) :
    List Action → List Action
  | [] => []
  | o :: os =>
      let d := a.decide opp g
      let a1 := d.2.1.observe opp.name d.1 o (pay.payoff d.1 o)
      d.1 :: playAgainst pay a1 opp d.2.2 os

/-! Concrete fixtures used by witnesses and counterexamples. -/

/-- A module-level `random` state whose draws are all `0`. -/
def gConstZero : PyRandom := { stream := fun _ => 0, pos := 0 }

/-- A module-level `random` state whose draws are all `1/2`. -/
def gConstHalf : PyRandom := { stream := fun _ => mkRat 1 2, pos := 0 }

/-- Roster with one stochastic strategy: `GenerousTitForTat(0.1)` and `AlwaysDefect`. -/
def rosterC1 : List Agent :=
  [mkAgent "G" (Strategy.generousTitForTat (mkRat 1 10)), mkAgent "A" Strategy.alwaysDefect]

/-- Simulator over `rosterC1`, default payoffs, seed 0, delta 0. -/
def simC1 : Simulator := Simulator.make rosterC1 {} 0 0

/-- Two-agent simulator, default payoffs, seed 0, delta 1/2, before any step. -/
def simC3 : Simulator :=
  Simulator.make [mkAgent "AC" Strategy.alwaysCooperate, mkAgent "AD" Strategy.alwaysDefect]
    {} 0 (mkRat 1 2)

/-- A freshly constructed `Gradual("GR")`. -/
def gradualFresh : Agent := mkAgent "GR" (Strategy.gradual [] [] [])

/-- An opponent stub (only its name is ever read by `decide`/`observe`). -/
def oppX : Agent := mkAgent "X" Strategy.alwaysCooperate

/-- GrimTrigger agent that has already seen one opponent Defect. -/
def grimC6 : Agent :=
  { name := "GRIM", score := 3,
    memory := [("X", { my_actions := [Action.C], opp_actions := [Action.D],
                       my_payoffs := [0] })],
    strat := Strategy.grimTrigger }


/-- An `Alternator` that has already taken one turn against `"X"`: its
private phase counter for `"X"` is 1 even though its score and memory are
untouched, as they are right after a `reset`. -/
def altStale : Agent :=
  { name := "ALT", score := 0, memory := [],
    strat := Strategy.alternator true [("X", 1)] }

/-- A two-agent simulator holding the stale alternator. -/
def simC10 : Simulator := Simulator.make [altStale, oppX] {} 0 0


-- The per-pair result tuples have a wide product type; the default
-- instance-size budget is too small to assemble its decidable equality, so
-- we register it explicitly.
set_option synthInstance.maxSize 1000 in
instance instDecEqRoundPairs :
    DecidableEq (ℕ × List (String × Action × String × Action × Int × Int)) :=
  fun a b => inferInstanceAs (Decidable (a = b))


/-- Spec-side payoff table (section 8 of the spec): the pair of payoffs
awarded to the two members of a pair, by action combination. -/
def pairPayoffsSpec (pay : Payoffs) : Action → Action → Int × Int
  | Action.C, Action.C => (pay.R, pay.R)
  | Action.C, Action.D => (pay.S, pay.T)
  | Action.D, Action.C => (pay.T, pay.S)
  | Action.D, Action.D => (pay.P, pay.P)

/-- The computational float comparison agrees with the order on ℚ. -/
theorem qblt_eq_true_iff (a b : ℚ) : qblt a b = true ↔ a < b := by
  simp [qblt, Rat.lt_def]

theorem payoff_pair_eq (pay : Payoffs) (m1 m2 : Action) :
    (pay.payoff m1 m2, pay.payoff m2 m1) = pairPayoffsSpec pay m1 m2 := by
  cases m1 <;> cases m2 <;> rfl

/-- Claim C7: `payoff` is total over the four action combinations with
values `R/S/T/P` exactly as documented, and `_play_pair_with_override`
awards the two members of a pair `(R,R)`, `(S,T)`, `(T,S)`, `(P,P)`
according to their pair of actions. -/
theorem payoff_total_and_pair_table (pay : Payoffs) (a1 a2 : Agent)
    (o : List (String × Action)) (g : PyRandom) :
    (pay.payoff Action.C Action.C = pay.R ∧ pay.payoff Action.C Action.D = pay.S ∧
     pay.payoff Action.D Action.C = pay.T ∧ pay.payoff Action.D Action.D = pay.P)
    ∧ ((play_pair_with_override a1 a2 pay o g).2.2.1,
       (play_pair_with_override a1 a2 pay o g).2.2.2.1)
      = pairPayoffsSpec pay (play_pair_with_override a1 a2 pay o g).1
          (play_pair_with_override a1 a2 pay o g).2.1 :=
  ⟨⟨rfl, rfl, rfl, rfl⟩, payoff_pair_eq pay _ _⟩

/-- Claim C2: `preview_pairs` called twice in a row returns the same pairing
both times, and each call leaves the round counter, every agent's cumulative
score, every dyad history — in fact the whole simulator state — unchanged. -/
theorem preview_pairs_idempotent_and_pure (s : Simulator) :
    s.preview_pairs.2.preview_pairs.1 = s.preview_pairs.1
    ∧ s.preview_pairs.2.round = s.round
    ∧ s.preview_pairs.2.agents.map Agent.score = s.agents.map Agent.score
    ∧ s.preview_pairs.2.agents.map Agent.memory = s.agents.map Agent.memory
    ∧ s.preview_pairs.2 = s :=
  ⟨rfl, rfl, rfl, rfl, rfl⟩

/-- Claim C4: the pairing returned by `preview_pairs` is exactly the pairing
the immediately following `step` uses (recorded into `last_pairs`, line 348),
and preview restores the random source's state before returning. -/
theorem preview_matches_next_step_pairs (s : Simulator) (o : List (String × Action))
    (g : PyRandom) :
    (s.step o g).2.1.last_pairs = s.preview_pairs.1 ∧ s.preview_pairs.2.rng = s.rng :=
  ⟨rfl, rfl⟩

/-- Claim C1 (refuting the determinism claim): two runs of simulators
constructed with the same seed, same roster, same delta, and the same
override sequence produce different round-report sequences and different
final `summary()` outputs when the module-level `random` they actually draw
from differs — `GenerousTitForTat.decide` (line 101) calls `random.random()`,
not the simulator's seeded `self.rng`. -/
theorem stochastic_draws_bypass_simulator_rng :
    (runSteps simC1 gConstZero [[], []]).1.map (fun r => (r.round, r.pairs))
      ≠ (runSteps simC1 gConstHalf [[], []]).1.map (fun r => (r.round, r.pairs))
    ∧ (runSteps simC1 gConstZero [[], []]).2.1.summary.map (fun x => (x.1, x.2.1))
      ≠ (runSteps simC1 gConstHalf [[], []]).2.1.summary.map (fun x => (x.1, x.2.1)) := by
  exact ⟨by decide, by decide⟩

/-- Claim C3 counterexample: on the very first round (`last_pairs` empty) the
rng position after `step` advanced by exactly the shuffle's one draw (roster
of two), not by the extra Bernoulli draw the claim says is still consumed:
`if self.last_pairs and self.rng.random() < self.delta` short-circuits. -/
theorem first_round_reuse_draw_not_consumed :
    (simC3.step [] gConstZero).2.1.rng.pos = simC3.rng.pos + 1
    ∧ (make_random_pairs simC3.agents simC3.rng.next.2).2.pos = simC3.rng.pos + 2
    ∧ simC3.rng.pos + 1 ≠ simC3.rng.pos + 2 := by
  exact ⟨by decide, by decide, by decide⟩

/-- Claim C3 (amended): when `last_pairs` is empty, `step` always takes the
fresh-pairing branch, and consumes no draw for the reuse-or-reshuffle check:
the rng ends exactly where the shuffle alone leaves it. -/
theorem first_round_fresh_and_no_reuse_draw (s : Simulator) (o : List (String × Action))
    (g : PyRandom) (h : s.last_pairs = []) :
    (s.step o g).2.1.last_pairs = (make_random_pairs s.agents s.rng).1
    ∧ (s.step o g).2.1.rng = (make_random_pairs s.agents s.rng).2 := by
  have hcp : choosePairs s.last_pairs s.delta s.agents s.rng
      = make_random_pairs s.agents s.rng := by
    rw [h]; simp [choosePairs]
  constructor
  · show (choosePairs s.last_pairs s.delta s.agents s.rng).1 = _
    rw [hcp]
  · show (choosePairs s.last_pairs s.delta s.agents s.rng).2 = _
    rw [hcp]

theorem first_round_fresh_and_no_reuse_draw_witness :
    simC3.last_pairs = []
    ∧ ((simC3.step [] gConstZero).2.1.last_pairs = (make_random_pairs simC3.agents simC3.rng).1
       ∧ (simC3.step [] gConstZero).2.1.rng = (make_random_pairs simC3.agents simC3.rng).2) :=
  ⟨rfl, first_round_fresh_and_no_reuse_draw simC3 [] gConstZero rfl⟩

/-- Claim C5 counterexample: a fresh `Gradual` whose opponent defects once
(round 1) and then cooperates defects on rounds 2 AND 3 — two punishment
defections, not the claimed exactly one: `decide` both returns `D` when it
sets `remaining = punish_count` (line 201) and then counts `remaining` more
defections down (lines 191-194). -/
theorem gradual_punishment_length_cex :
    playAgainst {} gradualFresh oppX gConstZero [Action.D, Action.C, Action.C, Action.C]
      = [Action.C, Action.D, Action.D, Action.C]
    ∧ [Action.C, Action.D, Action.D, Action.C] ≠ [Action.C, Action.D, Action.C, Action.C] := by
  exact ⟨by decide, by decide⟩

/-- Claim C5 (amended): after the opponent's first defection, `Gradual`
defects for exactly 2 consecutive rounds and then cooperates for 2 repair
rounds (absent further defections during punishment); after a second
defection occurring once the first cycle completed, it defects for exactly
3 consecutive rounds before the 2 repair rounds (in general, `n`-th
defection gives `n + 1` punishment defections). -/
theorem gradual_escalation_amended :
    playAgainst {} gradualFresh oppX gConstZero
      [Action.D, Action.C, Action.C, Action.C, Action.C, Action.D,
       Action.C, Action.C, Action.C, Action.C, Action.C, Action.C]
    = [Action.C, Action.D, Action.D, Action.C, Action.C, Action.C,
       Action.D, Action.D, Action.D, Action.C, Action.C, Action.C] := by
  decide

/-! Association-list lemmas used by the history-based claims. -/

theorem alookup_asetdefault_self {β : Type} (l : List (String × β)) (k : String) (v : β) :
    alookup (asetdefault l k v) k = some ((alookup l k).getD v) := by
  unfold asetdefault
  cases h : alookup l k with
  | some w => simp [h]
  | none =>
      simp only [h, Option.isSome_none, Bool.false_eq_true, if_false, Option.getD_none]
      induction l with
      | nil => simp [alookup]
      | cons p ps ih =>
          unfold alookup at h
          by_cases hp : p.1 = k
          · simp [hp] at h
          · simp only [hp, if_false] at h
            simpa [alookup, hp] using ih h

theorem alookup_map_update {β : Type} (l : List (String × β)) (k : String) (f : β → β) :
    alookup (l.map (fun p => if p.1 = k then (p.1, f p.2) else p)) k
      = (alookup l k).map f := by
  induction l with
  | nil => rfl
  | cons p ps ih =>
      by_cases hp : p.1 = k
      · simp [alookup, hp]
      · simp [alookup, hp, ih]

/-- Effect of `observe` on the dyad history for the observed opponent:
the three lists are extended by one entry each. -/
theorem observe_memory_lookup (a : Agent) (k : String) (x y : Action) (p : Int) :
    alookup (a.observe k x y p).memory k
      = some { my_actions := (lookupHist a.memory k).my_actions ++ [x]
               opp_actions := (lookupHist a.memory k).opp_actions ++ [y]
               my_payoffs := (lookupHist a.memory k).my_payoffs ++ [p] } := by
  show alookup ((asetdefault a.memory k emptyHist).map _) k = _
  rw [alookup_map_update (asetdefault a.memory k emptyHist) k
      (fun h => { my_actions := h.my_actions ++ [x]
                  opp_actions := h.opp_actions ++ [y]
                  my_payoffs := h.my_payoffs ++ [p] }),
    alookup_asetdefault_self]
  rfl

theorem grim_decide_of_mem (a : Agent) (opp : Agent) (g : PyRandom)
    (hs : a.strat = Strategy.grimTrigger)
    (hD : Action.D ∈ (lookupHist a.memory opp.name).opp_actions) :
    (a.decide opp g).1 = Action.D := by
  obtain ⟨n, sc, mem, st⟩ := a
  simp only at hs
  subst hs
  have hl : lookupHist (asetdefault mem opp.name emptyHist) opp.name
      = lookupHist mem opp.name := by
    unfold lookupHist
    rw [alookup_asetdefault_self]
    rfl
  simp [Agent.decide, hl, hD]

/-- Claim C6: once a Defect from an opponent is recorded in the dyad
history, GrimTrigger's `decide` against that opponent returns Defect after
any further sequence of observed interactions with that opponent, whatever
actions (including Cooperate) the opponent takes. -/
theorem grim_trigger_defects_forever (a opp : Agent) (g : PyRandom)
    (obs : List (Action × Action × Int))
    (hs : a.strat = Strategy.grimTrigger)
    (hD : Action.D ∈ (lookupHist a.memory opp.name).opp_actions) :
    ((observeMany a opp.name obs).decide opp g).1 = Action.D := by
  induction obs generalizing a with
  | nil => exact grim_decide_of_mem a opp g hs hD
  | cons o os ih =>
      refine ih (a.observe opp.name o.1 o.2.1 o.2.2) hs ?_
      unfold lookupHist
      rw [observe_memory_lookup]
      simp only [Option.getD_some]
      exact List.mem_append_left _ hD

theorem grim_trigger_defects_forever_witness :
    ((observeMany grimC6 oppX.name
        [(Action.C, Action.C, 3), (Action.C, Action.C, 3)]).decide oppX gConstZero).1
      = Action.D :=
  grim_trigger_defects_forever grimC6 oppX gConstZero
    [(Action.C, Action.C, 3), (Action.C, Action.C, 3)] rfl (by decide)

/-- Claim C9: against a never-seen opponent, `last_with` returns the
all-`none` triple (no exception is possible: the function is total), and
every strategy's `decide` — all 19 roster strategies plus the
user-controlled agent — returns its documented first-contact default
(`TitForTat` Cooperate; `SuspiciousTitForTat`, `AlwaysDefect`, `Prober` and
`Tester` Defect; the per-round stochastic strategies their documented
first-contact coin flip; the strategies with private per-opponent state
additionally start from empty private state on a never-seen opponent). -/
theorem first_contact_defaults (a opp : Agent) (g : PyRandom)
    (h : alookup a.memory opp.name = none) :
    a.last_with opp.name = (none, none, none)
    ∧ (a.strat = Strategy.titForTat → (a.decide opp g).1 = Action.C)
    ∧ (a.strat = Strategy.suspiciousTitForTat → (a.decide opp g).1 = Action.D)
    ∧ (a.strat = Strategy.alwaysDefect → (a.decide opp g).1 = Action.D)
    ∧ (a.strat = Strategy.alwaysCooperate → (a.decide opp g).1 = Action.C)
    ∧ (a.strat = Strategy.grimTrigger → (a.decide opp g).1 = Action.C)
    ∧ (∀ q, a.strat = Strategy.generousTitForTat q → (a.decide opp g).1 = Action.C)
    ∧ (∀ pr pl, a.strat = Strategy.softGrudger pr pl → alookup pl opp.name = none →
        (a.decide opp g).1 = Action.C)
    ∧ (∀ b cnt, a.strat = Strategy.alternator b cnt → alookup cnt opp.name = none →
        (a.decide opp g).1 = (if b then Action.C else Action.D))
    ∧ (∀ pc rem rep, a.strat = Strategy.gradual pc rem rep →
        alookup rem opp.name = none → alookup rep opp.name = none →
        (a.decide opp g).1 = Action.C)
    ∧ (a.strat = Strategy.winStayLoseShift → (a.decide opp g).1 = Action.C)
    ∧ (a.strat = Strategy.titForTwoTats → (a.decide opp g).1 = Action.C)
    ∧ (∀ p, a.strat = Strategy.randomCooperator p →
        (a.decide opp g).1 = (if qblt (g.stream g.pos) p then Action.C else Action.D))
    ∧ (∀ mode, a.strat = Strategy.prober mode → alookup mode opp.name = none →
        (a.decide opp g).1 = Action.D)
    ∧ (∀ e, a.strat = Strategy.stochasticWSLS e → (a.decide opp g).1 = Action.C)
    ∧ (∀ p, a.strat = Strategy.joss p → (a.decide opp g).1 = Action.C)
    ∧ (∀ con, a.strat = Strategy.contriteTitForTat con → (a.decide opp g).1 = Action.C)
    ∧ (∀ mode, a.strat = Strategy.tester mode → alookup mode opp.name = none →
        (a.decide opp g).1 = Action.D)
    ∧ (a.strat = Strategy.majority → (a.decide opp g).1 = Action.C)
    ∧ (∀ pCC pCD pDC pDD, a.strat = Strategy.memoryOne pCC pCD pDC pDD →
        (a.decide opp g).1 = (if qblt (g.stream g.pos) pCC then Action.C else Action.D))
    ∧ (∀ na, a.strat = Strategy.userAgent na → (a.decide opp g).1 = na.getD Action.C) := by
  obtain ⟨n, sc, mem, st⟩ := a
  simp only at h
  have hlw : Agent.last_with ⟨n, sc, mem, st⟩ opp.name = (none, none, none) := by
    simp [Agent.last_with, h]
  have hgrim : (lookupHist (asetdefault mem opp.name emptyHist) opp.name).opp_actions = [] := by
    unfold lookupHist
    rw [alookup_asetdefault_self, h]
    rfl
  have hmy : (lookupHist (asetdefault mem opp.name emptyHist) opp.name).my_actions = [] := by
    unfold lookupHist
    rw [alookup_asetdefault_self, h]
    rfl
  have hlw2 : Agent.last_with ⟨n, sc, asetdefault mem opp.name emptyHist, st⟩ opp.name
      = (none, none, none) := by
    simp [Agent.last_with, alookup_asetdefault_self, h, emptyHist]
  refine ⟨hlw, ?_, ?_, ?_, ?_, ?_, ?_, ?_, ?_, ?_, ?_, ?_, ?_, ?_, ?_, ?_, ?_, ?_, ?_, ?_, ?_⟩
  · intro hs; simp only at hs; subst hs; simp [Agent.decide, hlw]
  · intro hs; simp only at hs; subst hs; simp [Agent.decide, hlw]
  · intro hs; simp only at hs; subst hs; simp [Agent.decide]
  · intro hs; simp only at hs; subst hs; simp [Agent.decide]
  · intro hs; simp only at hs; subst hs; simp [Agent.decide, hgrim]
  · intro q hs; simp only at hs; subst hs; simp [Agent.decide, hlw]
  · intro pr pl hs hpl; simp only at hs; subst hs
    simp [Agent.decide, hpl, hlw2]
  · intro b cnt hs hcnt; simp only at hs; subst hs
    cases b <;> simp [Agent.decide, hcnt]
  · intro pc rem rep hs hrem hrep; simp only at hs; subst hs
    simp [Agent.decide, alookup_asetdefault_self, hrem, hrep, hlw2]
  · intro hs; simp only at hs; subst hs; simp [Agent.decide, hlw]
  · intro hs; simp only at hs; subst hs; simp [Agent.decide, hgrim]
  · intro p hs; simp only at hs; subst hs; simp [Agent.decide, PyRandom.next]
  · intro mode hs hm; simp only at hs; subst hs
    simp [Agent.decide, hm, hmy]
  · intro e hs; simp only at hs; subst hs; simp [Agent.decide, hlw]
  · intro p hs; simp only at hs; subst hs; simp [Agent.decide, hlw]
  · intro con hs; simp only at hs; subst hs; simp [Agent.decide, hlw2]
  · intro mode hs hm; simp only at hs; subst hs
    simp [Agent.decide, hm, hmy]
  · intro hs; simp only at hs; subst hs; simp [Agent.decide, hgrim]
  · intro pCC pCD pDC pDD hs; simp only at hs; subst hs
    simp [Agent.decide, hlw, PyRandom.next]
  · intro na hs; simp only at hs; subst hs; simp [Agent.decide]

theorem first_contact_defaults_witness :
    (mkAgent "T" Strategy.titForTat).last_with oppX.name = (none, none, none)
    ∧ ((mkAgent "T" Strategy.titForTat).decide oppX gConstZero).1 = Action.C :=
  ⟨(first_contact_defaults (mkAgent "T" Strategy.titForTat) oppX gConstZero rfl).1,
   (first_contact_defaults (mkAgent "T" Strategy.titForTat) oppX gConstZero rfl).2.1 rfl⟩

/-! Lemmas about the stable descending sort behind `summary`. -/

theorem insertByScoreDesc_perm (x : String × Int × ℚ) (l : List (String × Int × ℚ)) :
    (insertByScoreDesc x l).Perm (x :: l) := by
  induction l with
  | nil => exact List.Perm.refl _
  | cons y ys ih =>
      unfold insertByScoreDesc
      by_cases hc : x.2.1 < y.2.1
      · simp only [if_pos hc]
        exact (ih.cons y).trans (List.Perm.swap x y ys)
      · simp only [if_neg hc]
        exact List.Perm.refl _

theorem sortByScoreDesc_perm (l : List (String × Int × ℚ)) :
    (sortByScoreDesc l).Perm l := by
  induction l with
  | nil => exact List.Perm.refl _
  | cons x xs ih =>
      exact (insertByScoreDesc_perm x (sortByScoreDesc xs)).trans (ih.cons x)

theorem insertByScoreDesc_pairwise (x : String × Int × ℚ) (l : List (String × Int × ℚ))
    (hl : l.Pairwise (fun u v => v.2.1 ≤ u.2.1)) :
    (insertByScoreDesc x l).Pairwise (fun u v => v.2.1 ≤ u.2.1) := by
  induction l with
  | nil => simp [insertByScoreDesc]
  | cons y ys ih =>
      rcases List.pairwise_cons.mp hl with ⟨hy, hys⟩
      unfold insertByScoreDesc
      by_cases hc : x.2.1 < y.2.1
      · simp only [if_pos hc]
        refine List.pairwise_cons.mpr ⟨?_, ih hys⟩
        intro z hz
        rcases List.mem_cons.mp ((insertByScoreDesc_perm x ys).mem_iff.mp hz) with hz' | hz'
        · subst hz'; exact le_of_lt hc
        · exact hy z hz'
      · simp only [if_neg hc]
        have hyx : y.2.1 ≤ x.2.1 := not_lt.mp hc
        refine List.pairwise_cons.mpr ⟨?_, hl⟩
        intro z hz
        rcases List.mem_cons.mp hz with hz' | hz'
        · subst hz'; exact hyx
        · exact (hy z hz').trans hyx

theorem sortByScoreDesc_pairwise (l : List (String × Int × ℚ)) :
    (sortByScoreDesc l).Pairwise (fun u v => v.2.1 ≤ u.2.1) := by
  induction l with
  | nil => simp [sortByScoreDesc]
  | cons x xs ih => exact insertByScoreDesc_pairwise x (sortByScoreDesc xs) ih

theorem insertByScoreDesc_filter (v : Int) (x : String × Int × ℚ)
    (l : List (String × Int × ℚ)) :
    (insertByScoreDesc x l).filter (fun r => decide (r.2.1 = v))
      = if x.2.1 = v then x :: l.filter (fun r => decide (r.2.1 = v))
        else l.filter (fun r => decide (r.2.1 = v)) := by
  induction l with
  | nil =>
      by_cases px : x.2.1 = v <;> simp [insertByScoreDesc, List.filter, px]
  | cons y ys ih =>
      unfold insertByScoreDesc
      by_cases hc : x.2.1 < y.2.1
      · simp only [if_pos hc]
        by_cases px : x.2.1 = v
        · have py : ¬ y.2.1 = v := by
            intro hy; rw [px, hy] at hc; exact lt_irrefl v hc
          simp [List.filter_cons, px, py, ih]
        · by_cases py : y.2.1 = v <;> simp [List.filter_cons, px, py, ih]
      · simp only [if_neg hc]
        by_cases px : x.2.1 = v <;> simp [List.filter_cons, px]

theorem sortByScoreDesc_filter (v : Int) (l : List (String × Int × ℚ)) :
    (sortByScoreDesc l).filter (fun r => decide (r.2.1 = v))
      = l.filter (fun r => decide (r.2.1 = v)) := by
  induction l with
  | nil => rfl
  | cons x xs ih =>
      show (insertByScoreDesc x (sortByScoreDesc xs)).filter _ = _
      rw [insertByScoreDesc_filter]
      by_cases px : x.2.1 = v <;> simp [List.filter_cons, px, ih]

/-- Claim C8: `summary` returns one row `(name, score, score / max(1, round))`
per roster agent (a permutation of the roster's rows), sorted by descending
cumulative score, and stably so: for every score value the rows carrying that
score appear in roster (construction) order. -/
theorem summary_sorted_stable_perm (s : Simulator) :
    (s.summary).Perm (s.agents.map (scoreRow s.round))
    ∧ (s.summary).Pairwise (fun u v => v.2.1 ≤ u.2.1)
    ∧ ∀ v : Int, (s.summary).filter (fun r => decide (r.2.1 = v))
        = (s.agents.map (scoreRow s.round)).filter (fun r => decide (r.2.1 = v)) :=
  ⟨sortByScoreDesc_perm _, sortByScoreDesc_pairwise _, fun v => sortByScoreDesc_filter v _⟩

/-- Claim C10: `reset` zeroes the round counter, `last_pairs`, all series and
tallies, every agent's score and every dyad history, but leaves each
strategy's private per-opponent state (the `strat` component) unchanged — so
an agent's post-reset decision can differ from a freshly constructed one:
the stale alternator defects on its first post-reset decision while a fresh
alternator cooperates. -/
theorem reset_frame_effect (s : Simulator) :
    (s.reset).round = 0
    ∧ (s.reset).last_pairs = []
    ∧ (s.reset).coop_rates = []
    ∧ (s.reset).per_round_avg_all = []
    ∧ (s.reset).action_counts = []
    ∧ (s.reset).per_agent_cumsum = s.agents.map (fun a => (a.name, 0))
    ∧ (s.reset).per_agent_cumavg = s.agents.map (fun a => (a.name, ([] : List ℚ)))
    ∧ (s.reset).agents.map Agent.score = s.agents.map (fun _ => 0)
    ∧ (s.reset).agents.map Agent.memory = s.agents.map (fun _ => ([] : List (String × DyadHistory)))
    ∧ (s.reset).agents.map Agent.strat = s.agents.map Agent.strat
    ∧ ((lookupAgentD (simC10.reset).agents "ALT").decide oppX gConstZero).1 = Action.D
    ∧ ((mkAgent "ALT" (Strategy.alternator true [])).decide oppX gConstZero).1 = Action.C := by
  refine ⟨rfl, rfl, rfl, rfl, rfl, rfl, rfl, ?_, ?_, ?_, by decide, by decide⟩
  · show (s.agents.map _).map Agent.score = _
    rw [List.map_map]
    rfl
  · show (s.agents.map _).map Agent.memory = _
    rw [List.map_map]
    rfl
  · show (s.agents.map _).map Agent.strat = _
    rw [List.map_map]
    rfl

end PD
